import Mathlib

/-!
# LocalMesh (src/src/pages/LocalMesh.tsx): shallow embedding and verification

This file embeds the peer-session logic of the LocalMesh page: the signaling
codec (`JSON.stringify` / `JSON.parse` of session descriptors), the
data-channel wire protocol handler (`wireDataChannel`'s `onmessage`), the
chunked file send path (`sendFile`), chat sending (`sendChat`), and the
offer-creation sequence (`createOffer` / `waitForIceGathering`).

Machine strings are modelled as Lean `String`/`List Char`; file bytes as
`List Nat` (bytes are opaque: only concatenation matters). `JSON.parse` is
modelled by an executable fuel-indexed parser `parseValue` over a `Json`
inductive; `JSON.stringify`'s string escaping by `escChar`.
-/

namespace LocalMesh

/-- Bytes of a file or of one binary frame. Treated as opaque values. -/
abbrev Bytes := List Nat

/-! ## JSON string escaping (JSON.stringify) -/

/-- Hex digit character for a value `< 16`, lower case as produced by
`JSON.stringify`'s `\u00XX` escapes. -/
def hexDigit (n : Nat) : Char :=
  if n < 10 then Char.ofNat (48 + n) else Char.ofNat (87 + n)

/-- Numeric value of a hex digit character; 0 for non-hex input (the parser
checks digit-ness separately). -/
def hexVal (c : Char) : Nat :=
  if 48 ≤ c.toNat ∧ c.toNat ≤ 57 then c.toNat - 48
  else if 97 ≤ c.toNat ∧ c.toNat ≤ 102 then c.toNat - 87
  else if 65 ≤ c.toNat ∧ c.toNat ≤ 70 then c.toNat - 55
  else 0

/-- Is `c` a hex digit accepted after `\u`? -/
def isHex (c : Char) : Bool :=
  (48 ≤ c.toNat && c.toNat ≤ 57) || (97 ≤ c.toNat && c.toNat ≤ 102) ||
    (65 ≤ c.toNat && c.toNat ≤ 70)

/-- `JSON.stringify` escaping of one character inside a string literal:
quote and backslash get a backslash escape, the five control characters with
short forms use them, the remaining control characters become `\u00XX`,
everything else is passed through. -/
def escChar (c : Char) : List Char :=
  if c = '"' then ['\\', '"']
  else if c = '\\' then ['\\', '\\']
  else if c.toNat = 8 then ['\\', 'b']
  else if c.toNat = 9 then ['\\', 't']
  else if c.toNat = 10 then ['\\', 'n']
  else if c.toNat = 12 then ['\\', 'f']
  else if c.toNat = 13 then ['\\', 'r']
  else if c.toNat < 32 then
    ['\\', 'u', '0', '0', hexDigit (c.toNat / 16), hexDigit (c.toNat % 16)]
  else [c]

/-- Escape a whole string body (no surrounding quotes). -/
def escStr (s : List Char) : List Char := s.flatMap escChar

/-- The full JSON string literal for `s`: quotes around the escaped body. -/
def jstr (s : List Char) : List Char := '"' :: escStr s ++ ['"']

/-! ## JSON string literal parsing (the string part of JSON.parse) -/

/-- Decoded character of a single-character escape `\e`, `none` when `e`
is not one of the simple escapes (the `\u` form is handled separately). -/
def escDecode (e : Char) : Option Char :=
  if e = '"' then some '"'
  else if e = '\\' then some '\\'
  else if e = '/' then some '/'
  else if e = 'b' then some (Char.ofNat 8)
  else if e = 't' then some '\t'
  else if e = 'n' then some '\n'
  else if e = 'f' then some (Char.ofNat 12)
  else if e = 'r' then some (Char.ofNat 13)
  else none

/-- Parse the body of a JSON string literal after the opening quote, up to
and including the closing quote; returns the decoded characters and the
rest of the input. Fails on invalid escapes, unescaped control characters
and unterminated literals, as `JSON.parse` does. -/
def parseStringBody : List Char → Option (List Char × List Char)
  | [] => none
  | c :: rest =>
    if c = '"' then some ([], rest)
    else if c = '\\' then
      match rest with
      | [] => none
      | e :: rest2 =>
        if e = 'u' then
          match rest2 with
          | a :: b :: c2 :: d :: rest3 =>
            if isHex a && isHex b && isHex c2 && isHex d then
              (parseStringBody rest3).map fun (s, r) =>
                (Char.ofNat (hexVal a * 4096 + hexVal b * 256 + hexVal c2 * 16 + hexVal d) :: s, r)
            else none
          | _ => none
        else
          match escDecode e with
          | some ch => (parseStringBody rest2).map fun (s, r) => (ch :: s, r)
          | none => none
    else if c.toNat < 32 then none
    else (parseStringBody rest).map fun (s, r) => (c :: s, r)

/-! ## JSON values and JSON.parse -/

/-- JSON values as produced by `JSON.parse`. Numbers are kept at the token
level: sign, integer part, and the raw fraction/exponent suffix characters
(the page only ever reads integer byte counts out of them). Object members
keep source order; duplicate keys are resolved last-wins on access, as in
JavaScript. -/
inductive Json where
  | null
  | bool (b : Bool)
  | num (neg : Bool) (ip : Nat) (sfx : List Char)
  | str (s : String)
  | arr (elems : List Json)
  | obj (members : List (String × Json))

/-- JSON insignificant whitespace. -/
def isWsCh (c : Char) : Bool :=
  c = ' ' || c.toNat = 9 || c.toNat = 10 || c.toNat = 13

/-- Skip insignificant whitespace. -/
def skipWs : List Char → List Char
  | [] => []
  | c :: rest => if isWsCh c then skipWs rest else c :: rest

/-- Decimal digit test. -/
def isDigitCh (c : Char) : Bool := 48 ≤ c.toNat && c.toNat ≤ 57

/-- Consume leading decimal digits, accumulating their value. -/
def parseDigitsAcc : List Char → Nat → Nat × List Char
  | [], acc => (acc, [])
  | c :: rest, acc =>
    if isDigitCh c then parseDigitsAcc rest (acc * 10 + (c.toNat - 48))
    else (acc, c :: rest)

/-- Consume leading decimal digits, keeping them as characters. -/
def takeDigits : List Char → List Char × List Char
  | [] => ([], [])
  | c :: rest =>
    if isDigitCh c then
      match takeDigits rest with
      | (ds, r) => (c :: ds, r)
    else ([], c :: rest)

/-- Optional fraction part `.digits` of a JSON number, kept raw. -/
def parseFrac : List Char → Option (List Char × List Char)
  | [] => some ([], [])
  | c :: rest =>
    if c = '.' then
      match takeDigits rest with
      | ([], _) => none
      | (ds, r) => some ('.' :: ds, r)
    else some ([], c :: rest)

/-- Optional exponent part `e[+-]digits` of a JSON number, kept raw. -/
def parseExp : List Char → Option (List Char × List Char)
  | [] => some ([], [])
  | c :: rest =>
    if c = 'e' || c = 'E' then
      match
        (match rest with
          | s :: r2 => if s = '+' || s = '-' then ([s], r2) else ([], s :: r2)
          | [] => (([] : List Char), ([] : List Char))) with
      | (sgn, rest2) =>
        match takeDigits rest2 with
        | ([], _) => none
        | (ds, r) => some (c :: (sgn ++ ds), r)
    else some ([], c :: rest)

/-- Parse a JSON number token (sign, integer part, raw fraction/exponent).
Lenient on the leading-zero rule, which no input of interest exercises. -/
def parseNumber (cs : List Char) : Option (Json × List Char) :=
  match (match cs with
          | c :: r => if c = '-' then (true, r) else (false, cs)
          | [] => (false, ([] : List Char))) with
  | (neg, cs1) =>
    match cs1 with
    | c :: _ =>
      if isDigitCh c then
        match parseDigitsAcc cs1 0 with
        | (ip, rest) =>
          match parseFrac rest with
          | none => none
          | some (fr, rest2) =>
            match parseExp rest2 with
            | none => none
            | some (ex, rest3) => some (.num neg ip (fr ++ ex), rest3)
      else none
    | [] => none

/-- Strip an expected literal character sequence. -/
def stripLit : List Char → List Char → Option (List Char)
  | [], cs => some cs
  | _ :: _, [] => none
  | l :: ls, c :: cs => if c = l then stripLit ls cs else none

mutual

/-- Fuel-indexed parser for one JSON value, modelling `JSON.parse`; the
fuel only bounds bracket nesting and member counts (callers pass the input
length, which always suffices). Returns the value and the unconsumed rest. -/
def parseValue : Nat → List Char → Option (Json × List Char)
  | 0, _ => none
  | f + 1, cs =>
    match skipWs cs with
    | [] => none
    | c :: rest =>
      if c = '{' then
        match skipWs rest with
        | [] => none
        | c2 :: rest2 =>
          if c2 = '}' then some (.obj [], rest2)
          else
            match parseMembers f (c2 :: rest2) with
            | some (ms, r) => some (.obj ms, r)
            | none => none
      else if c = '[' then
        match skipWs rest with
        | [] => none
        | c2 :: rest2 =>
          if c2 = ']' then some (.arr [], rest2)
          else
            match parseElems f (c2 :: rest2) with
            | some (vs, r) => some (.arr vs, r)
            | none => none
      else if c = '"' then
        match parseStringBody rest with
        | some (s, r) => some (.str (String.mk s), r)
        | none => none
      else if c = 't' then
        match stripLit ['r', 'u', 'e'] rest with
        | some r => some (.bool true, r)
        | none => none
      else if c = 'f' then
        match stripLit ['a', 'l', 's', 'e'] rest with
        | some r => some (.bool false, r)
        | none => none
      else if c = 'n' then
        match stripLit ['u', 'l', 'l'] rest with
        | some r => some (.null, r)
        | none => none
      else parseNumber (c :: rest)

/-- Parse a non-empty `key : value` member list up to and including the
closing brace. -/
def parseMembers : Nat → List Char → Option (List (String × Json) × List Char)
  | 0, _ => none
  | f + 1, cs =>
    match skipWs cs with
    | [] => none
    | c :: rest =>
      if c = '"' then
        match parseStringBody rest with
        | none => none
        | some (key, rest2) =>
          match skipWs rest2 with
          | [] => none
          | c2 :: rest3 =>
            if c2 = ':' then
              match parseValue f rest3 with
              | none => none
              | some (v, rest4) =>
                match skipWs rest4 with
                | [] => none
                | c3 :: rest5 =>
                  if c3 = ',' then
                    match parseMembers f rest5 with
                    | some (ms, r) => some ((String.mk key, v) :: ms, r)
                    | none => none
                  else if c3 = '}' then some ([(String.mk key, v)], rest5)
                  else none
            else none
      else none

/-- Parse a non-empty array element list up to and including the closing
bracket. -/
def parseElems : Nat → List Char → Option (List Json × List Char)
  | 0, _ => none
  | f + 1, cs =>
    match parseValue f cs with
    | none => none
    | some (v, rest) =>
      match skipWs rest with
      | [] => none
      | c :: rest2 =>
        if c = ',' then
          match parseElems f rest2 with
          | some (vs, r) => some (v :: vs, r)
          | none => none
        else if c = ']' then some (v :: [], rest2)
        else none

end

/-- `JSON.parse`: parse one JSON value spanning the entire text (up to
whitespace); `none` models the thrown `SyntaxError`. -/
def jsonParse (s : String) : Option Json :=
  match parseValue (s.toList.length + 1) s.toList with
  | some (v, rest) => if skipWs rest = [] then some v else none
  | none => none

/-- JavaScript property access `v[k]` on a parsed JSON value: `some` when
the member exists (last duplicate wins), `none` for the `undefined` result
on missing members and non-object values. -/
def getField (v : Json) (k : String) : Option Json :=
  match v with
  | .obj ms => (ms.reverse.find? fun m => m.1 = k).map fun m => m.2
  | _ => none

/-! ## JSON.stringify -/

/-- Canonical decimal digits of a natural number, as `JSON.stringify`
prints a non-negative integer. -/
def natDigits (n : Nat) : List Char :=
  if n < 10 then [Char.ofNat (48 + n)]
  else natDigits (n / 10) ++ [Char.ofNat (48 + n % 10)]
termination_by n
decreasing_by exact Nat.div_lt_self (by omega) (by omega)

mutual

/-- `JSON.stringify` on a JSON value. -/
def stringifyJson : Json → List Char
  | .null => "null".toList
  | .bool b => (if b then "true" else "false").toList
  | .num neg ip sfx => (if neg then ['-'] else []) ++ natDigits ip ++ sfx
  | .str s => jstr s.toList
  | .arr vs => '[' :: stringifyElems vs ++ [']']
  | .obj ms => '{' :: stringifyMembers ms ++ ['}']

/-- Comma-separated array elements. -/
def stringifyElems : List Json → List Char
  | [] => []
  | [v] => stringifyJson v
  | v :: vs => stringifyJson v ++ ',' :: stringifyElems vs

/-- Comma-separated `"key":value` members. -/
def stringifyMembers : List (String × Json) → List Char
  | [] => []
  | [(k, v)] => jstr k.toList ++ ':' :: stringifyJson v
  | (k, v) :: ms => jstr k.toList ++ ':' :: stringifyJson v ++ ',' :: stringifyMembers ms

end

/-! ## Data model of the page (LocalMesh.tsx) -/

/-- Message origin: the `from` field of `ChatMessage`, `"me" | "peer"`. -/
inductive Origin where
  | me
  | peer
deriving DecidableEq, Repr

/-- `ChatMessage = { from, text, at }`; `from`/`at` are Lean keywords, so
they appear here as `origin`/`time`. -/
structure ChatMessage where
  origin : Origin
  text : String
  time : Nat
deriving DecidableEq, Repr

/-- The in-flight inbound transfer held in `sendingRef.current`:
`{ buffer: Uint8Array[]; size: number }`. -/
structure InFlight where
  buffer : List Bytes
  size : Nat
deriving DecidableEq, Repr

/-- The component state touched by the session logic: the four signaling
text areas, the connected flag, the chat log, the outgoing chat draft, the
data channel's ready state (`none` models a null `dataChannelRef`), the
in-flight inbound transfer, and the list of files finalized at `file-end`
(the downloads triggered from the received blob, recorded in arrival
order). -/
structure MeshState where
  localOffer : String
  remoteAnswer : String
  remoteOffer : String
  localAnswer : String
  connected : Bool
  messages : List ChatMessage
  outgoingText : String
  dataChannel : Option String
  sending : Option InFlight
  received : List Bytes

/-- A data-channel frame as delivered to `onmessage`: a JavaScript string
or an `ArrayBuffer`. -/
inductive Frame where
  | text (s : String)
  | binary (b : Bytes)

/-- The dead `size` field stored by the `file-meta` branch: `msg.meta.size`
when `meta` is an object. A present integer is kept; any other form (an
absent member or a non-integral number, both stored as-is by the JavaScript
and never read back) collapses to 0. -/
def metaSize (m : Json) : Nat :=
  match getField m "size" with
  | some (.num false ip []) => ip
  | _ => 0

/-- Reading a string property such as `msg.text`: a missing or non-string
value is `undefined` in the JavaScript; it is stored but never consumed, and
is modelled as `""`. -/
def jsStr : Option Json → String
  | some (.str s) => s
  | _ => ""

/-- Outcome of the `msg.t` dispatch in `onmessage` on a successfully parsed
text frame. `fault` is the `TypeError` thrown by `msg.meta.size` when
`msg.meta` is absent or null; it lands in the same `catch` as a parse
failure. `other` is a `t` matching no branch: the handler does nothing. -/
inductive TextMsg where
  | chat (text : String)
  | fileMeta (size : Nat)
  | fileEnd
  | other
  | fault

/-- The `msg.t` dispatch of `onmessage`. A parsed top-level `null` is a
`fault`: reading `msg.t` on `null` throws a `TypeError` that lands in the
catch. Every other non-object value (number, string, boolean, array) gives
`undefined` for `msg.t` without throwing, matches no branch, and is
dropped. -/
def classify (v : Json) : TextMsg :=
  match v with
  | .null => .fault
  | _ =>
    match getField v "t" with
    | some (.str t) =>
      if t = "chat" then .chat (jsStr (getField v "text"))
      else if t = "file-meta" then
        match getField v "meta" with
        | none => .fault
        | some .null => .fault
        | some m => .fileMeta (metaSize m)
      else if t = "file-end" then .fileEnd
      else .other
    | _ => .other

/-- `onmessage` on a textual frame: `JSON.parse` in a `try`; `chat` appends
a peer message, `file-meta` replaces the in-flight transfer with a fresh
empty one, `file-end` finalizes the buffered chunks into one blob (the
concatenation `new Blob(entry.buffer)`) and clears the transfer; a parse
failure or a thrown `TypeError` falls to the catch, which appends the whole
text as a literal peer chat message. -/
def handleTextFrame (now : Nat) (st : MeshState) (s : String) : MeshState :=
  match jsonParse s with
  | none => { st with messages := st.messages ++ [⟨.peer, s, now⟩] }
  | some v =>
    match classify v with
    | .chat text => { st with messages := st.messages ++ [⟨.peer, text, now⟩] }
    | .fileMeta size => { st with sending := some ⟨[], size⟩ }
    | .fileEnd =>
      match st.sending with
      | some entry =>
        { st with received := st.received ++ [entry.buffer.flatten], sending := none }
      | none => st
    | .other => st
    | .fault => { st with messages := st.messages ++ [⟨.peer, s, now⟩] }

/-- `onmessage` (`wireDataChannel`): textual frames go through the
structured decode, binary frames are buffered unconditionally as a file
chunk, opening a fresh `{ buffer: [], size: 0 }` transfer when none is in
flight. -/
def handleMessage (now : Nat) (st : MeshState) : Frame → MeshState
  | .text s => handleTextFrame now st s
  | .binary b =>
    match st.sending with
    | none => { st with sending := some ⟨[b], 0⟩ }
    | some entry => { st with sending := some ⟨entry.buffer ++ [b], entry.size⟩ }

/-- Process a sequence of inbound frames in delivery order. -/
def processFrames (now : Nat) (st : MeshState) (fs : List Frame) : MeshState :=
  fs.foldl (handleMessage now) st

/-! ## Wire message encoders (the send sites) -/

/-- The JSON value `{ t: "chat", text }` built by `sendChat`. -/
def chatJson (text : String) : Json := .obj [("t", .str "chat"), ("text", .str text)]

/-- `JSON.stringify({ t: "chat", text })`. -/
def encodeChat (text : String) : String := String.mk (stringifyJson (chatJson text))

/-- The JSON value `{ t: "file-meta", meta: { name, size, type } }` built
by `sendFile`. -/
def metaJson (name : String) (size : Nat) (ty : String) : Json :=
  .obj [("t", .str "file-meta"),
        ("meta", .obj [("name", .str name), ("size", .num false size []), ("type", .str ty)])]

/-- `JSON.stringify` of the file-meta message. -/
def encodeFileMeta (name : String) (size : Nat) (ty : String) : String :=
  String.mk (stringifyJson (metaJson name size ty))

/-- The JSON value `{ t: "file-end" }`. -/
def endJson : Json := .obj [("t", .str "file-end")]

/-- `JSON.stringify({ t: "file-end" })`. -/
def encodeFileEnd : String := String.mk (stringifyJson endJson)

/-! ## File send path (sendFile) -/

/-- The fixed chunk size: `16 * 1024` bytes. -/
def chunkSize : Nat := 16 * 1024

/-- The chunk loop of `sendFile`: slices `buf.slice(i, i + chunkSize)` for
`i = 0, chunkSize, 2*chunkSize, ...` while `i < buf.byteLength`, in offset
order. An empty file yields no chunks. -/
def chunksOf (bytes : Bytes) : List Bytes :=
  if bytes = [] then []
  else bytes.take chunkSize :: chunksOf (bytes.drop chunkSize)
termination_by bytes.length
decreasing_by
  simp only [List.length_drop]
  have : bytes.length ≠ 0 := by
    simpa [List.length_eq_zero] using (by assumption : ¬bytes = [])
  simp [chunkSize]; omega

/-- A file handed to `sendFile`: its `name`, MIME `type`, and content bytes
(`file.size` equals the byte length). -/
structure FileData where
  name : String
  type : String
  bytes : Bytes

/-- The frame sequence `sendFile` emits on an open channel: one file-meta,
the 16 KiB chunks in offset order, one file-end. -/
def sendFileFrames (f : FileData) : List Frame :=
  .text (encodeFileMeta f.name f.bytes.length f.type)
    :: ((chunksOf f.bytes).map .binary ++ [.text encodeFileEnd])

/-! ## Chat send (sendChat) -/

/-- Whitespace removed by JavaScript's `String.prototype.trim` (the ASCII
part; the page never feeds it the exotic Unicode spaces). -/
def isTrimWs (c : Char) : Bool :=
  c = ' ' || c.toNat = 9 || c.toNat = 10 || c.toNat = 11 || c.toNat = 12 || c.toNat = 13

/-- `outgoingText.trim()` of the guard in `sendChat`. -/
def jsTrim (s : String) : String :=
  String.mk (((s.toList.dropWhile isTrimWs).reverse.dropWhile isTrimWs).reverse)

/-- `sendChat`: a no-op unless the channel exists, is open and the draft
text is non-blank (`!outgoingText.trim()`); otherwise it sends
`{ t: "chat", text }`, appends the local echo to the log and clears the
draft. Returns the new state and the frame put on the wire. -/
def sendChat (now : Nat) (st : MeshState) : MeshState × Option Frame :=
  if st.dataChannel ≠ some "open" then (st, none)
  else if jsTrim st.outgoingText = "" then (st, none)
  else
    ({ st with
        messages := st.messages ++ [⟨.me, st.outgoingText, now⟩],
        outgoingText := "" },
      some (.text (encodeChat st.outgoingText)))

/-! ## Signaling codec and the apply operations -/

/-- A session descriptor as exchanged over copy-paste: the `type` and `sdp`
read from `RTCSessionDescription` (serialized in attribute order). -/
structure SessionDesc where
  type : String
  sdp : String
deriving DecidableEq, Repr

/-- The JSON shape of a serialized descriptor. -/
def descJson (d : SessionDesc) : Json := .obj [("type", .str d.type), ("sdp", .str d.sdp)]

/-- `encode`: `JSON.stringify(pc.localDescription)` as run by `createOffer`
and `acceptOffer`. -/
def encodeDesc (d : SessionDesc) : String := String.mk (stringifyJson (descJson d))

/-- `decode`: `JSON.parse` of the pasted text followed by the transport's
read of `desc.type` and `desc.sdp`; `none` when the text is not valid JSON
or the fields are not both strings. -/
def decodeDesc (text : String) : Option SessionDesc :=
  match jsonParse text with
  | none => none
  | some v =>
    match getField v "type", getField v "sdp" with
    | some (.str t), some (.str s) => some ⟨t, s⟩
    | _, _ => none

/-- Observable outcome of `applyAnswer` / `acceptOffer`: either the parsed
descriptor value reached `pc.setRemoteDescription`, or the `catch` ran
(console.error plus the error toast) leaving the component state alone. -/
inductive ApplyOutcome where
  | applied (v : Json)
  | errorShown

/-- `applyAnswer`: `JSON.parse(remoteAnswer)` inside `try`, then
`pc.setRemoteDescription(desc)`. There is no session-state guard of any
kind: whatever parses is handed to the transport. No component state is
written on either path (the toast is the only effect). -/
def applyAnswer (st : MeshState) : ApplyOutcome × MeshState :=
  match jsonParse st.remoteAnswer with
  | some v => (.applied v, st)
  | none => (.errorShown, st)

/-- `acceptOffer`: parse the pasted offer, hand it to the transport,
generate and apply the local answer (the transport's answer is an oracle
parameter here), wait for gathering, publish the encoded answer. On a parse
failure the catch runs and nothing is written. -/
def acceptOffer (answer : SessionDesc) (st : MeshState) : ApplyOutcome × MeshState :=
  match jsonParse st.remoteOffer with
  | some v => (.applied v, { st with localAnswer := encodeDesc answer })
  | none => (.errorShown, st)

/-- The component state at mount: empty text areas, no channel, no
transfer, no messages. -/
def initialState : MeshState :=
  { localOffer := "", remoteAnswer := "", remoteOffer := "", localAnswer := "",
    connected := false, messages := [], outgoingText := "", dataChannel := none,
    sending := none, received := [] }

/-! ## createOffer as an event trace (for the temporal claim) -/

/-- The observable steps of `createOffer`, in program order. -/
inductive OfferEv where
  | createChannel
  | genOffer
  | setLocal
  | gatherEvent
  | gatherComplete
  | encode
deriving DecidableEq, Repr

/-- `waitForIceGathering`: returns at once when gathering is already
complete, otherwise listens to `icegatheringstatechange` events until one
observes the `complete` state; `k` is the number of non-complete events the
environment delivers first. -/
def waitForIceGathering (complete0 : Bool) (k : Nat) : List OfferEv :=
  if complete0 then [] else List.replicate k .gatherEvent ++ [.gatherComplete]

/-- The trace of one `createOffer` run: `createDataChannelIfNeeded` (a
creation only when no channel exists yet), `pc.createOffer`,
`pc.setLocalDescription`, the gathering wait, and only then the
serialization into the offer text area. -/
def createOfferTrace (hasChannel complete0 : Bool) (k : Nat) : List OfferEv :=
  (if hasChannel then [] else [.createChannel])
    ++ [.genOffer, .setLocal] ++ waitForIceGathering complete0 k ++ [.encode]

/-- Gathering has reached its terminal state after the events `evs`, given
whether it was already complete at the start of the wait. -/
def gatherDone (complete0 : Bool) (evs : List OfferEv) : Prop :=
  complete0 = true ∨ OfferEv.gatherComplete ∈ evs

instance (complete0 : Bool) (evs : List OfferEv) : Decidable (gatherDone complete0 evs) := by
  unfold gatherDone; infer_instance

/-- A fresh session whose channel is open, with "a" typed into the chat
draft. -/
def chatDemo0 : MeshState :=
  { initialState with dataChannel := some "open", outgoingText := "a" }

/-- The state after sending "a" at time `n1`, with "b" typed next. -/
def chatDemo1 (n1 : Nat) : MeshState :=
  { (sendChat n1 chatDemo0).1 with outgoingText := "b" }

/-! ## Parser unfolding and helper lemmas -/

theorem hexVal_hexDigit {n : Nat} (h : n < 16) : hexVal (hexDigit n) = n :=
  have all : ∀ m < 16, hexVal (hexDigit m) = m := by decide
  all n h

theorem isHex_hexDigit {n : Nat} (h : n < 16) : isHex (hexDigit n) = true :=
  have all : ∀ m < 16, isHex (hexDigit m) = true := by decide
  all n h

theorem parseStringBody_nil : parseStringBody [] = none := rfl

/-- Unfolding equation for `parseStringBody` on a cons cell. -/
theorem parseStringBody_cons (c : Char) (rest : List Char) :
    parseStringBody (c :: rest) =
      (if c = '"' then some ([], rest)
      else if c = '\\' then
        match rest with
        | [] => none
        | e :: rest2 =>
          if e = 'u' then
            match rest2 with
            | a :: b :: c2 :: d :: rest3 =>
              if isHex a && isHex b && isHex c2 && isHex d then
                (parseStringBody rest3).map fun (s, r) =>
                  (Char.ofNat (hexVal a * 4096 + hexVal b * 256 + hexVal c2 * 16 + hexVal d) :: s, r)
              else none
            | _ => none
          else
            match escDecode e with
            | some ch => (parseStringBody rest2).map fun (s, r) => (ch :: s, r)
            | none => none
      else if c.toNat < 32 then none
      else (parseStringBody rest).map fun (s, r) => (c :: s, r)) := by
  rw [parseStringBody.eq_def]

/-- Un-escaping inverts escaping: the parser consumes exactly the escaped
body plus the closing quote and returns the original characters. -/
theorem parseStringBody_esc (s : List Char) (rest : List Char) :
    parseStringBody (escStr s ++ '"' :: rest) = some (s, rest) := by
  induction s with
  | nil => simp [escStr, parseStringBody_cons]
  | cons c cs ih =>
    have hcs : escStr (c :: cs) = escChar c ++ escStr cs := by
      simp [escStr]
    rw [hcs, List.append_assoc]
    by_cases h1 : c = '"'
    · subst h1; simp [escChar, parseStringBody_cons, escDecode, ih]
    by_cases h2 : c = '\\'
    · subst h2; simp [escChar, parseStringBody_cons, escDecode, ih]
    by_cases h3 : c.toNat = 8
    · have hc : c = Char.ofNat 8 := by
        have := Char.ofNat_toNat c; rw [h3] at this; exact this.symm
      simp [escChar, h1, h2, h3, parseStringBody_cons, escDecode, ih, hc]
    by_cases h4 : c.toNat = 9
    · have hc : c = '\t' := by
        have := Char.ofNat_toNat c; rw [h4] at this; exact this.symm
      simp [escChar, h1, h2, h3, h4, parseStringBody_cons, escDecode, ih, hc]
    by_cases h5 : c.toNat = 10
    · have hc : c = '\n' := by
        have := Char.ofNat_toNat c; rw [h5] at this; exact this.symm
      simp [escChar, h1, h2, h3, h4, h5, parseStringBody_cons, escDecode, ih, hc]
    by_cases h6 : c.toNat = 12
    · have hc : c = Char.ofNat 12 := by
        have := Char.ofNat_toNat c; rw [h6] at this; exact this.symm
      simp [escChar, h1, h2, h3, h4, h5, h6, parseStringBody_cons, escDecode, ih, hc]
    by_cases h7 : c.toNat = 13
    · have hc : c = Char.ofNat 13 := by
        have := Char.ofNat_toNat c; rw [h7] at this; exact this.symm
      simp [escChar, h1, h2, h3, h4, h5, h6, h7, parseStringBody_cons, escDecode, ih, hc]
    by_cases h8 : c.toNat < 32
    · have hdiv : c.toNat / 16 < 16 := by omega
      have hmod : c.toNat % 16 < 16 := Nat.mod_lt _ (by omega)
      have hc : Char.ofNat (hexVal '0' * 4096 + hexVal '0' * 256 +
          hexVal (hexDigit (c.toNat / 16)) * 16 + hexVal (hexDigit (c.toNat % 16))) = c := by
        rw [hexVal_hexDigit hdiv, hexVal_hexDigit hmod]
        have h0 : hexVal '0' = 0 := by decide
        rw [h0]
        have hdm : c.toNat / 16 * 16 + c.toNat % 16 = c.toNat := by omega
        simp only [Nat.zero_mul, Nat.zero_add, hdm]
        exact Char.ofNat_toNat c
      have h0x : isHex '0' = true := by decide
      simp [escChar, h1, h2, h3, h4, h5, h6, h7, h8, parseStringBody_cons,
        isHex_hexDigit hdiv, isHex_hexDigit hmod, h0x, ih, hc]
    · simp [escChar, h1, h2, h3, h4, h5, h6, h7, h8, parseStringBody_cons, ih]


theorem stringMk_toList (s : String) : String.mk s.toList = s := by
  cases s; rfl

theorem toNat_ofNat_lt {n : Nat} (h : n < 55296) : (Char.ofNat n).toNat = n := by
  have hv : n.isValidChar := Or.inl h
  rw [Char.ofNat, dif_pos hv]
  simp [Char.ofNatAux, Char.toNat, UInt32.toNat]

theorem char_ne_of_toNat_ne {c d : Char} (h : c.toNat ≠ d.toNat) : c ≠ d :=
  fun e => h (congrArg Char.toNat e)

theorem skipWs_cons_not {c : Char} (l : List Char) (h : isWsCh c = false) :
    skipWs (c :: l) = c :: l := by
  simp [skipWs, h]

/-- Unfolding equation for `parseValue` at positive fuel. -/
theorem parseValue_succ (f : Nat) (cs : List Char) :
    parseValue (f + 1) cs =
      (match skipWs cs with
      | [] => none
      | c :: rest =>
        if c = '{' then
          match skipWs rest with
          | [] => none
          | c2 :: rest2 =>
            if c2 = '}' then some (.obj [], rest2)
            else
              match parseMembers f (c2 :: rest2) with
              | some (ms, r) => some (.obj ms, r)
              | none => none
        else if c = '[' then
          match skipWs rest with
          | [] => none
          | c2 :: rest2 =>
            if c2 = ']' then some (.arr [], rest2)
            else
              match parseElems f (c2 :: rest2) with
              | some (vs, r) => some (.arr vs, r)
              | none => none
        else if c = '"' then
          match parseStringBody rest with
          | some (s, r) => some (.str (String.mk s), r)
          | none => none
        else if c = 't' then
          match stripLit ['r', 'u', 'e'] rest with
          | some r => some (.bool true, r)
          | none => none
        else if c = 'f' then
          match stripLit ['a', 'l', 's', 'e'] rest with
          | some r => some (.bool false, r)
          | none => none
        else if c = 'n' then
          match stripLit ['u', 'l', 'l'] rest with
          | some r => some (.null, r)
          | none => none
        else parseNumber (c :: rest)) := rfl

/-- Unfolding equation for `parseMembers` at positive fuel. -/
theorem parseMembers_succ (f : Nat) (cs : List Char) :
    parseMembers (f + 1) cs =
      (match skipWs cs with
      | [] => none
      | c :: rest =>
        if c = '"' then
          match parseStringBody rest with
          | none => none
          | some (key, rest2) =>
            match skipWs rest2 with
            | [] => none
            | c2 :: rest3 =>
              if c2 = ':' then
                match parseValue f rest3 with
                | none => none
                | some (v, rest4) =>
                  match skipWs rest4 with
                  | [] => none
                  | c3 :: rest5 =>
                    if c3 = ',' then
                      match parseMembers f rest5 with
                      | some (ms, r) => some ((String.mk key, v) :: ms, r)
                      | none => none
                    else if c3 = '}' then some ([(String.mk key, v)], rest5)
                    else none
              else none
        else none) := rfl

/-- A quoted, escaped string parses to the original at any positive fuel. -/
theorem parseValue_str (f : Nat) (s : String) (rest : List Char) :
    parseValue (f + 1) (jstr s.toList ++ rest) = some (.str s, rest) := by
  have h1 : isWsCh '"' = false := by decide
  simp [jstr, List.append_assoc, parseValue_succ, skipWs_cons_not _ h1,
    parseStringBody_esc, stringMk_toList]

/-! ## Number parsing lemmas -/

theorem natDigits_lt {n : Nat} (h : n < 10) : natDigits n = [Char.ofNat (48 + n)] := by
  rw [natDigits.eq_def]; simp [h]

theorem natDigits_ge {n : Nat} (h : ¬n < 10) :
    natDigits n = natDigits (n / 10) ++ [Char.ofNat (48 + n % 10)] := by
  rw [natDigits.eq_def]; simp [h]

theorem isDigitCh_digit {d : Nat} (h : d < 10) : isDigitCh (Char.ofNat (48 + d)) = true := by
  have ht : (Char.ofNat (48 + d)).toNat = 48 + d := toNat_ofNat_lt (by omega)
  simp [isDigitCh, ht]; omega

theorem natDigits_head (n : Nat) :
    ∃ d tl, natDigits n = Char.ofNat (48 + d) :: tl ∧ d < 10 := by
  induction n using Nat.strong_induction_on with
  | _ n ih =>
    by_cases h : n < 10
    · exact ⟨n, [], by rw [natDigits_lt h], h⟩
    · obtain ⟨d, tl, hd, hlt⟩ := ih (n / 10) (Nat.div_lt_self (by omega) (by omega))
      exact ⟨d, tl ++ [Char.ofNat (48 + n % 10)], by rw [natDigits_ge h, hd]; simp, hlt⟩

theorem parseDigitsAcc_natDigits (n : Nat) :
    ∀ acc rest, parseDigitsAcc (natDigits n ++ rest) acc =
      parseDigitsAcc rest (acc * 10 ^ (natDigits n).length + n) := by
  induction n using Nat.strong_induction_on with
  | _ n ih =>
    intro acc rest
    by_cases h : n < 10
    · rw [natDigits_lt h]
      have ht : (Char.ofNat (48 + n)).toNat = 48 + n := toNat_ofNat_lt (by omega)
      simp only [List.singleton_append, parseDigitsAcc, isDigitCh_digit h, if_pos, ht,
        List.length_singleton, pow_one]
      congr 1
      omega
    · rw [natDigits_ge h, List.append_assoc, ih (n / 10) (Nat.div_lt_self (by omega) (by omega))]
      have h10 : n % 10 < 10 := Nat.mod_lt _ (by omega)
      have ht : (Char.ofNat (48 + n % 10)).toNat = 48 + n % 10 := toNat_ofNat_lt (by omega)
      simp only [List.singleton_append, parseDigitsAcc, isDigitCh_digit h10, if_pos, ht,
        List.nil_append, List.length_append, List.length_singleton]
      congr 1
      have hdm : n / 10 * 10 + n % 10 = n := by omega
      calc (acc * 10 ^ (natDigits (n / 10)).length + n / 10) * 10 + (48 + n % 10 - 48)
          = acc * (10 ^ (natDigits (n / 10)).length * 10) + (n / 10 * 10 + n % 10) := by
            rw [show 48 + n % 10 - 48 = n % 10 from by omega]; ring
        _ = acc * 10 ^ ((natDigits (n / 10)).length + 1) + n := by rw [hdm, pow_succ]

theorem parseDigitsAcc_stop {c : Char} (h : isDigitCh c = false) (l : List Char) (a : Nat) :
    parseDigitsAcc (c :: l) a = (a, c :: l) := by
  simp [parseDigitsAcc, h]

/-- A canonical integer token followed by a non-number character parses to
that integer with an empty fraction/exponent suffix. -/
theorem parseNumber_natDigits (n : Nat) {c : Char} (r : List Char)
    (hd : isDigitCh c = false) (hdot : c ≠ '.') (he : c ≠ 'e') (hE : c ≠ 'E') :
    parseNumber (natDigits n ++ c :: r) = some (.num false n [], c :: r) := by
  obtain ⟨d, tl, hnd, hlt⟩ := natDigits_head n
  have ht : (Char.ofNat (48 + d)).toNat = 48 + d := toNat_ofNat_lt (by omega)
  have hminus : Char.ofNat (48 + d) ≠ '-' := by
    apply char_ne_of_toNat_ne
    rw [ht]
    have : ('-' : Char).toNat = 45 := rfl
    omega
  rw [hnd, List.cons_append]
  simp only [parseNumber, if_neg hminus, isDigitCh_digit hlt, if_pos]
  rw [← List.cons_append, ← hnd, parseDigitsAcc_natDigits n 0 (c :: r),
    parseDigitsAcc_stop hd]
  simp only [Nat.zero_mul, Nat.zero_add]
  simp [parseFrac, parseExp, hdot, he, hE]

/-- A canonical integer token parses as a JSON value. -/
theorem parseValue_natDigits (f : Nat) (n : Nat) {c : Char} (r : List Char)
    (hd : isDigitCh c = false) (hdot : c ≠ '.') (he : c ≠ 'e') (hE : c ≠ 'E') :
    parseValue (f + 1) (natDigits n ++ c :: r) = some (.num false n [], c :: r) := by
  obtain ⟨d, tl, hnd, hlt⟩ := natDigits_head n
  have ht : (Char.ofNat (48 + d)).toNat = 48 + d := toNat_ofNat_lt (by omega)
  have hws : isWsCh (Char.ofNat (48 + d)) = false := by
    have hsp : Char.ofNat (48 + d) ≠ ' ' := by
      apply char_ne_of_toNat_ne; rw [ht]
      have : (' ' : Char).toNat = 32 := rfl
      omega
    simp [isWsCh, hsp, ht]; omega
  have hbr : Char.ofNat (48 + d) ≠ '{' := by
    apply char_ne_of_toNat_ne; rw [ht]
    have : ('{' : Char).toNat = 123 := rfl
    omega
  have hbk : Char.ofNat (48 + d) ≠ '[' := by
    apply char_ne_of_toNat_ne; rw [ht]
    have : ('[' : Char).toNat = 91 := rfl
    omega
  have hqt : Char.ofNat (48 + d) ≠ '"' := by
    apply char_ne_of_toNat_ne; rw [ht]
    have : ('"' : Char).toNat = 34 := rfl
    omega
  have htt : Char.ofNat (48 + d) ≠ 't' := by
    apply char_ne_of_toNat_ne; rw [ht]
    have : ('t' : Char).toNat = 116 := rfl
    omega
  have hff : Char.ofNat (48 + d) ≠ 'f' := by
    apply char_ne_of_toNat_ne; rw [ht]
    have : ('f' : Char).toNat = 102 := rfl
    omega
  have hnn : Char.ofNat (48 + d) ≠ 'n' := by
    apply char_ne_of_toNat_ne; rw [ht]
    have : ('n' : Char).toNat = 110 := rfl
    omega
  rw [hnd, List.cons_append, parseValue_succ]
  simp only [skipWs_cons_not _ hws, if_neg hbr, if_neg hbk, if_neg hqt, if_neg htt,
    if_neg hff, if_neg hnn]
  rw [← List.cons_append, ← hnd]
  exact parseNumber_natDigits n r hd hdot he hE

/-! ## Object parsing lemmas -/

/-- A single final `"key":value}` member group. -/
theorem parseMembers_one (f : Nat) (k : String) (vtxt : List Char) (v : Json)
    (rest : List Char) (hv : parseValue f vtxt = some (v, '}' :: rest)) :
    parseMembers (f + 1) (jstr k.toList ++ ':' :: vtxt) = some ([(k, v)], rest) := by
  rw [parseMembers_succ]
  have hq : isWsCh '"' = false := by decide
  have hcol : isWsCh ':' = false := by decide
  have hbr : isWsCh '}' = false := by decide
  simp [jstr, List.append_assoc, skipWs_cons_not _ hq, skipWs_cons_not _ hcol,
    skipWs_cons_not _ hbr, parseStringBody_esc, hv, stringMk_toList]

/-- A `"key":value,` member group followed by further members. -/
theorem parseMembers_more (f : Nat) (k : String) (vtxt mid rest : List Char) (v : Json)
    (ms : List (String × Json)) (hv : parseValue f vtxt = some (v, ',' :: mid))
    (hms : parseMembers f mid = some (ms, rest)) :
    parseMembers (f + 1) (jstr k.toList ++ ':' :: vtxt) = some ((k, v) :: ms, rest) := by
  rw [parseMembers_succ]
  have hq : isWsCh '"' = false := by decide
  have hcol : isWsCh ':' = false := by decide
  have hcm : isWsCh ',' = false := by decide
  simp [jstr, List.append_assoc, skipWs_cons_not _ hq, skipWs_cons_not _ hcol,
    skipWs_cons_not _ hcm, parseStringBody_esc, hv, hms, stringMk_toList]

/-- An object literal whose member text starts with a quoted key. -/
theorem parseValue_objHead (f : Nat) (k : String) (more : List Char)
    (ms : List (String × Json)) (rest : List Char)
    (hbody : parseMembers f (jstr k.toList ++ ':' :: more) = some (ms, rest)) :
    parseValue (f + 1) ('{' :: jstr k.toList ++ ':' :: more) = some (.obj ms, rest) := by
  rw [parseValue_succ]
  have hbr : isWsCh '{' = false := by decide
  have hq : isWsCh '"' = false := by decide
  simp only [jstr, List.cons_append, List.nil_append, List.append_assoc,
    List.singleton_append, String.toList] at hbody
  simp [jstr, List.append_assoc, skipWs_cons_not _ hbr, skipWs_cons_not _ hq, hbody]

/-! ## Round-trip of the signaling codec -/

/-- The serialized descriptor parses back to its JSON value, at any
sufficient fuel. -/
theorem parseValue_descJson (f : Nat) (d : SessionDesc) (rest : List Char) :
    parseValue (f + 4) (stringifyJson (descJson d) ++ rest) = some (descJson d, rest) := by
  have h2 : parseValue (f + 1) (jstr d.sdp.toList ++ '}' :: rest) =
      some (.str d.sdp, '}' :: rest) := parseValue_str f d.sdp ('}' :: rest)
  have h3 : parseMembers (f + 2)
      (jstr "sdp".toList ++ ':' :: (jstr d.sdp.toList ++ '}' :: rest)) =
      some ([("sdp", .str d.sdp)], rest) := parseMembers_one (f + 1) "sdp" _ _ rest h2
  have h4 : parseValue (f + 2)
      (jstr d.type.toList ++
        ',' :: (jstr "sdp".toList ++ ':' :: (jstr d.sdp.toList ++ '}' :: rest))) =
      some (.str d.type,
        ',' :: (jstr "sdp".toList ++ ':' :: (jstr d.sdp.toList ++ '}' :: rest))) :=
    parseValue_str (f + 1) d.type _
  have h5 : parseMembers (f + 3)
      (jstr "type".toList ++
        ':' :: (jstr d.type.toList ++
          ',' :: (jstr "sdp".toList ++ ':' :: (jstr d.sdp.toList ++ '}' :: rest)))) =
      some ([("type", .str d.type), ("sdp", .str d.sdp)], rest) :=
    parseMembers_more (f + 2) "type" _ _ rest _ _ h4 h3
  have hshape : stringifyJson (descJson d) ++ rest =
      '{' :: jstr "type".toList ++
        ':' :: (jstr d.type.toList ++
          ',' :: (jstr "sdp".toList ++ ':' :: (jstr d.sdp.toList ++ '}' :: rest))) := by
    simp [stringifyJson, descJson, stringifyMembers, List.append_assoc]
  rw [hshape]
  exact parseValue_objHead (f + 3) "type" _ _ rest h5

/-- `JSON.parse` inverts `JSON.stringify` on a serialized descriptor. -/
theorem jsonParse_encodeDesc (d : SessionDesc) :
    jsonParse (encodeDesc d) = some (descJson d) := by
  have hlen : 3 ≤ (stringifyJson (descJson d)).length := by
    simp [stringifyJson, descJson, stringifyMembers, jstr]
    omega
  simp only [jsonParse, encodeDesc]
  have htl : (String.mk (stringifyJson (descJson d))).toList =
      stringifyJson (descJson d) := rfl
  rw [htl]
  obtain ⟨f, hf⟩ : ∃ f, (stringifyJson (descJson d)).length + 1 = f + 4 :=
    ⟨(stringifyJson (descJson d)).length - 3, by omega⟩
  rw [hf]
  have hp := parseValue_descJson f d []
  rw [List.append_nil] at hp
  rw [hp]
  simp [skipWs]

/-! ## Parsing the file-meta frame -/

/-- The serialized file-meta message parses back to its JSON value. -/
theorem parseValue_metaJson (f : Nat) (name : String) (size : Nat) (ty : String)
    (rest : List Char) :
    parseValue (f + 8) (stringifyJson (metaJson name size ty) ++ rest) =
      some (metaJson name size ty, rest) := by
  have hcm1 : isDigitCh ',' = false := by decide
  have hcm2 : (',' : Char) ≠ '.' := by decide
  have hcm3 : (',' : Char) ≠ 'e' := by decide
  have hcm4 : (',' : Char) ≠ 'E' := by decide
  have h1 : parseValue (f + 1) (jstr ty.toList ++ '}' :: ('}' :: rest)) =
      some (.str ty, '}' :: ('}' :: rest)) := parseValue_str f ty _
  have h2 : parseMembers (f + 2)
      (jstr "type".toList ++ ':' :: (jstr ty.toList ++ '}' :: ('}' :: rest))) =
      some ([("type", .str ty)], '}' :: rest) := parseMembers_one (f + 1) "type" _ _ _ h1
  have h3 : parseValue (f + 2)
      (natDigits size ++
        ',' :: (jstr "type".toList ++ ':' :: (jstr ty.toList ++ '}' :: ('}' :: rest)))) =
      some (.num false size [],
        ',' :: (jstr "type".toList ++ ':' :: (jstr ty.toList ++ '}' :: ('}' :: rest)))) :=
    parseValue_natDigits (f + 1) size _ hcm1 hcm2 hcm3 hcm4
  have h4 : parseMembers (f + 3)
      (jstr "size".toList ++
        ':' :: (natDigits size ++
          ',' :: (jstr "type".toList ++ ':' :: (jstr ty.toList ++ '}' :: ('}' :: rest))))) =
      some ([("size", .num false size []), ("type", .str ty)], '}' :: rest) :=
    parseMembers_more (f + 2) "size" _ _ _ _ _ h3 h2
  have h5 : parseValue (f + 3)
      (jstr name.toList ++
        ',' :: (jstr "size".toList ++
          ':' :: (natDigits size ++
            ',' :: (jstr "type".toList ++ ':' :: (jstr ty.toList ++ '}' :: ('}' :: rest)))))) =
      some (.str name,
        ',' :: (jstr "size".toList ++
          ':' :: (natDigits size ++
            ',' :: (jstr "type".toList ++ ':' :: (jstr ty.toList ++ '}' :: ('}' :: rest)))))) :=
    parseValue_str (f + 2) name _
  have h6 : parseMembers (f + 4)
      (jstr "name".toList ++
        ':' :: (jstr name.toList ++
          ',' :: (jstr "size".toList ++
            ':' :: (natDigits size ++
              ',' :: (jstr "type".toList ++ ':' :: (jstr ty.toList ++ '}' :: ('}' :: rest))))))) =
      some ([("name", .str name), ("size", .num false size []), ("type", .str ty)],
        '}' :: rest) := parseMembers_more (f + 3) "name" _ _ _ _ _ h5 h4
  have h7 : parseValue (f + 5)
      ('{' :: jstr "name".toList ++
        ':' :: (jstr name.toList ++
          ',' :: (jstr "size".toList ++
            ':' :: (natDigits size ++
              ',' :: (jstr "type".toList ++ ':' :: (jstr ty.toList ++ '}' :: ('}' :: rest))))))) =
      some (.obj [("name", .str name), ("size", .num false size []), ("type", .str ty)],
        '}' :: rest) := parseValue_objHead (f + 4) "name" _ _ _ h6
  have h8 : parseMembers (f + 6)
      (jstr "meta".toList ++
        ':' :: ('{' :: jstr "name".toList ++
          ':' :: (jstr name.toList ++
            ',' :: (jstr "size".toList ++
              ':' :: (natDigits size ++
                ',' :: (jstr "type".toList ++ ':' :: (jstr ty.toList ++ '}' :: ('}' :: rest)))))))) =
      some ([("meta",
          .obj [("name", .str name), ("size", .num false size []), ("type", .str ty)])],
        rest) := parseMembers_one (f + 5) "meta" _ _ _ h7
  have h9 : parseValue (f + 6)
      (jstr "file-meta".toList ++
        ',' :: (jstr "meta".toList ++
          ':' :: ('{' :: jstr "name".toList ++
            ':' :: (jstr name.toList ++
              ',' :: (jstr "size".toList ++
                ':' :: (natDigits size ++
                  ',' :: (jstr "type".toList ++ ':' :: (jstr ty.toList ++ '}' :: ('}' :: rest))))))))) =
      some (.str "file-meta",
        ',' :: (jstr "meta".toList ++
          ':' :: ('{' :: jstr "name".toList ++
            ':' :: (jstr name.toList ++
              ',' :: (jstr "size".toList ++
                ':' :: (natDigits size ++
                  ',' :: (jstr "type".toList ++ ':' :: (jstr ty.toList ++ '}' :: ('}' :: rest))))))))) :=
    parseValue_str (f + 5) "file-meta" _
  have h10 : parseMembers (f + 7)
      (jstr "t".toList ++
        ':' :: (jstr "file-meta".toList ++
          ',' :: (jstr "meta".toList ++
            ':' :: ('{' :: jstr "name".toList ++
              ':' :: (jstr name.toList ++
                ',' :: (jstr "size".toList ++
                  ':' :: (natDigits size ++
                    ',' :: (jstr "type".toList ++ ':' :: (jstr ty.toList ++ '}' :: ('}' :: rest)))))))))) =
      some ([("t", .str "file-meta"),
          ("meta",
            .obj [("name", .str name), ("size", .num false size []), ("type", .str ty)])],
        rest) := parseMembers_more (f + 6) "t" _ _ _ _ _ h9 h8
  have hshape : stringifyJson (metaJson name size ty) ++ rest =
      '{' :: jstr "t".toList ++
        ':' :: (jstr "file-meta".toList ++
          ',' :: (jstr "meta".toList ++
            ':' :: ('{' :: jstr "name".toList ++
              ':' :: (jstr name.toList ++
                ',' :: (jstr "size".toList ++
                  ':' :: (natDigits size ++
                    ',' :: (jstr "type".toList ++ ':' :: (jstr ty.toList ++ '}' :: ('}' :: rest))))))))) := by
    simp [stringifyJson, metaJson, stringifyMembers, List.append_assoc]
  rw [hshape]
  exact parseValue_objHead (f + 7) "t" _ _ rest h10

/-- `JSON.parse` inverts `JSON.stringify` on the file-meta frame. -/
theorem jsonParse_encodeFileMeta (name : String) (size : Nat) (ty : String) :
    jsonParse (encodeFileMeta name size ty) = some (metaJson name size ty) := by
  have hlen : 7 ≤ (stringifyJson (metaJson name size ty)).length := by
    simp [stringifyJson, metaJson, stringifyMembers, jstr]
    omega
  simp only [jsonParse, encodeFileMeta]
  have htl : (String.mk (stringifyJson (metaJson name size ty))).toList =
      stringifyJson (metaJson name size ty) := rfl
  rw [htl]
  obtain ⟨f, hf⟩ : ∃ f, (stringifyJson (metaJson name size ty)).length + 1 = f + 8 :=
    ⟨(stringifyJson (metaJson name size ty)).length - 7, by omega⟩
  rw [hf]
  have hp := parseValue_metaJson f name size ty []
  rw [List.append_nil] at hp
  rw [hp]
  simp [skipWs]

/-- The file-meta frame classifies as `fileMeta` with its `size` field. -/
theorem classify_metaJson (name : String) (size : Nat) (ty : String) :
    classify (metaJson name size ty) = .fileMeta size := rfl

/-! ## Receive-path processing lemmas -/

theorem processFrames_nil (now : Nat) (st : MeshState) : processFrames now st [] = st := rfl

theorem processFrames_cons (now : Nat) (st : MeshState) (f : Frame) (fs : List Frame) :
    processFrames now st (f :: fs) = processFrames now (handleMessage now st f) fs := rfl

theorem processFrames_append (now : Nat) (st : MeshState) (l1 l2 : List Frame) :
    processFrames now st (l1 ++ l2) = processFrames now (processFrames now st l1) l2 :=
  List.foldl_append _ _ _ _

/-- A run of binary frames appends each frame's bytes to the open
transfer's buffer, in order. -/
theorem processFrames_binary (now : Nat) (chunks : List Bytes) :
    ∀ (st : MeshState) (buf : List Bytes) (size : Nat), st.sending = some ⟨buf, size⟩ →
      processFrames now st (chunks.map .binary) =
        { st with sending := some ⟨buf ++ chunks, size⟩ } := by
  induction chunks with
  | nil =>
    intro st buf size h
    simp only [List.map_nil, processFrames_nil, List.append_nil]
    cases st; simp_all
  | cons c cl ih =>
    intro st buf size h
    rw [List.map_cons, processFrames_cons]
    have hstep : handleMessage now st (.binary c) =
        { st with sending := some ⟨buf ++ [c], size⟩ } := by
      simp [handleMessage, h]
    rw [hstep, ih _ (buf ++ [c]) size rfl]
    simp

/-- Concatenating the 16 KiB chunks restores the original bytes. -/
theorem chunksOf_flatten (bytes : Bytes) : (chunksOf bytes).flatten = bytes := by
  rw [chunksOf.eq_def]
  by_cases h : bytes = []
  · simp [h]
  · have ih := chunksOf_flatten (bytes.drop chunkSize)
    simp [h, ih]
termination_by bytes.length
decreasing_by
  simp only [List.length_drop]
  have : bytes.length ≠ 0 := by
    simpa [List.length_eq_zero] using h
  simp [chunkSize]; omega

/-- Receiving the file-meta frame replaces any in-flight transfer with a
fresh empty one carrying the advertised size. -/
theorem handleMessage_meta (now : Nat) (st : MeshState) (name : String) (size : Nat)
    (ty : String) :
    handleMessage now st (.text (encodeFileMeta name size ty)) =
      { st with sending := some ⟨[], size⟩ } := by
  simp [handleMessage, handleTextFrame, jsonParse_encodeFileMeta, classify_metaJson]

/-- Receiving the file-end frame with an open transfer finalizes the
concatenated buffer and closes the transfer. -/
theorem handleMessage_end (now : Nat) (st : MeshState) (entry : InFlight)
    (h : st.sending = some entry) :
    handleMessage now st (.text encodeFileEnd) =
      { st with received := st.received ++ [entry.buffer.flatten], sending := none } := by
  have hp : jsonParse encodeFileEnd = some endJson := rfl
  have hc : classify endJson = .fileEnd := rfl
  simp [handleMessage, handleTextFrame, hp, hc, h]

/-- Replaying one complete send (meta, chunks, end) on any starting state
delivers exactly the file's bytes and closes the transfer. -/
theorem processFrames_sendFile (now : Nat) (st : MeshState) (f : FileData) :
    processFrames now st (sendFileFrames f) =
      { st with sending := none, received := st.received ++ [f.bytes] } := by
  rw [sendFileFrames, processFrames_cons, handleMessage_meta, processFrames_append]
  rw [processFrames_binary now (chunksOf f.bytes) _ [] f.bytes.length rfl]
  simp only [List.nil_append]
  rw [processFrames_cons, handleMessage_end now _ ⟨chunksOf f.bytes, f.bytes.length⟩ rfl,
    processFrames_nil]
  simp [chunksOf_flatten]

/-! ## Trace ordering helpers -/

/-- In `init ++ x :: tail`, an occurrence of `x` that appears in neither
`init` nor `tail` pins any split at `x` to exactly that position. -/
theorem append_split_unique {α : Type} (x : α) :
    ∀ (pre init tail suf : List α), init ++ x :: tail = pre ++ x :: suf →
      x ∉ init → x ∉ tail → pre = init ∧ suf = tail := by
  intro pre
  induction pre with
  | nil =>
    intro init tail suf h hi ht
    cases init with
    | nil =>
      simp only [List.nil_append] at h
      injection h with h1 h2
      exact ⟨rfl, h2.symm⟩
    | cons a init2 =>
      simp only [List.cons_append, List.nil_append] at h
      injection h with h1 h2
      exact absurd (by simp [h1]) hi
  | cons p pre2 ih =>
    intro init tail suf h hi ht
    cases init with
    | nil =>
      simp only [List.nil_append, List.cons_append] at h
      injection h with h1 h2
      exact absurd (by rw [h2]; exact List.mem_append_right _ (List.mem_cons_self _ _)) ht
    | cons a init2 =>
      simp only [List.cons_append] at h
      injection h with h1 h2
      obtain ⟨hp, hs⟩ := ih init2 tail suf h2 (fun hm => hi (List.mem_cons_of_mem _ hm)) ht
      exact ⟨by rw [hp, h1], hs⟩

/-! ## The claims -/

/-- C1: every file pushed through the send path (one file-meta, the 16 KiB
chunks in offset order, one file-end) and replayed through the receive path
is delivered at file-end byte-identical to the original, for every size
(0, sub-chunk, exactly one chunk, many chunks included). -/
theorem C1_send_receive_roundtrip (now : Nat) (st : MeshState) (f : FileData) :
    (processFrames now st (sendFileFrames f)).received = st.received ++ [f.bytes] := by
  rw [processFrames_sendFile]

/-- C2: decoding the encoded copy-paste text of any descriptor yields the
descriptor back: `decode(encode(d)) = d`. -/
theorem C2_descriptor_roundtrip (d : SessionDesc) : decodeDesc (encodeDesc d) = some d := by
  simp only [decodeDesc, jsonParse_encodeDesc]
  rfl

/-- C4: text that is not valid JSON makes `applyAnswer` / `acceptOffer`
fail with the surfaced malformed-descriptor error (the catch shows the
error toast, nothing is thrown onward) and leaves the component state
exactly as it was. -/
theorem C4_malformed_text_surfaced_state_unchanged (st : MeshState) (ans : SessionDesc) :
    (jsonParse st.remoteAnswer = none → applyAnswer st = (.errorShown, st)) ∧
    (jsonParse st.remoteOffer = none → acceptOffer ans st = (.errorShown, st)) := by
  constructor <;> intro h <;> simp [applyAnswer, acceptOffer, h]

/-- C4 witness: the invalid paste `"not json"` on a fresh session. -/
theorem C4_witness :
    applyAnswer { initialState with remoteAnswer := "not json" } =
      (.errorShown, { initialState with remoteAnswer := "not json" }) :=
  (C4_malformed_text_surfaced_state_unchanged
    { initialState with remoteAnswer := "not json" } ⟨"answer", ""⟩).1 rfl

/-- C5: a file-meta arriving while a prior transfer is still unfinished
discards the prior buffered bytes and starts a fresh empty transfer; the
file finalized for the new transfer is exactly the new file's bytes, with
no byte of the abandoned transfer in it. -/
theorem C5_meta_discards_prior_transfer (now : Nat) (st : MeshState) (prior : InFlight)
    (h : st.sending = some prior) (f : FileData) :
    handleMessage now st (.text (encodeFileMeta f.name f.bytes.length f.type)) =
      { st with sending := some ⟨[], f.bytes.length⟩ } ∧
    (processFrames now st (sendFileFrames f)).received = st.received ++ [f.bytes] :=
  ⟨handleMessage_meta now st f.name f.bytes.length f.type, by rw [processFrames_sendFile]⟩

/-- C5 witness: a dirty state holding two buffered chunks of an abandoned
transfer, then a fresh 3-byte file. -/
theorem C5_witness :
    handleMessage 0 { initialState with sending := some ⟨[[9], [8]], 7⟩ }
        (.text (encodeFileMeta "f" 3 "x")) =
      { initialState with sending := some ⟨[], 3⟩ } ∧
    (processFrames 0 { initialState with sending := some ⟨[[9], [8]], 7⟩ }
        (sendFileFrames ⟨"f", "x", [1, 2, 3]⟩)).received = [[1, 2, 3]] :=
  C5_meta_discards_prior_transfer 0 { initialState with sending := some ⟨[[9], [8]], 7⟩ }
    ⟨[[9], [8]], 7⟩ rfl ⟨"f", "x", [1, 2, 3]⟩

/-- C6: a text frame that fails the structured decode is not an error: the
whole text is appended to the log as a literal peer chat message. -/
theorem C6_unparsable_text_becomes_chat (now : Nat) (st : MeshState) (s : String)
    (h : jsonParse s = none) :
    handleMessage now st (.text s) =
      { st with messages := st.messages ++ [⟨.peer, s, now⟩] } := by
  simp [handleMessage, handleTextFrame, h]

/-- C6 witness: the frame `"hello"`. -/
theorem C6_witness :
    handleMessage 0 initialState (.text "hello") =
      { initialState with messages := [⟨.peer, "hello", 0⟩] } :=
  C6_unparsable_text_becomes_chat 0 initialState "hello" rfl

/-- C7: a binary frame with no transfer in flight is not discarded: a
transfer with expected size 0 opens and buffers the frame as its first
chunk. -/
theorem C7_binary_without_meta_buffered (now : Nat) (st : MeshState) (b : Bytes)
    (h : st.sending = none) :
    handleMessage now st (.binary b) = { st with sending := some ⟨[b], 0⟩ } := by
  simp [handleMessage, h]

/-- C7 witness: a 3-byte chunk into a fresh session. -/
theorem C7_witness :
    handleMessage 0 initialState (.binary [1, 2, 3]) =
      { initialState with sending := some ⟨[[1, 2, 3]], 0⟩ } :=
  C7_binary_without_meta_buffered 0 initialState [1, 2, 3] rfl

/-- C10 counterexample: the text `"null"` parses as valid structured data
(the JSON value `null`) with no `t` tag, yet it is not silently dropped:
reading `msg.t` on `null` throws a `TypeError` caught by the same catch as
a parse failure, which appends the whole text `"null"` to the log as a
literal peer chat message, changing the component state. -/
theorem C10_counterexample :
    handleMessage 0 initialState (.text "null") ≠ initialState ∧
    handleMessage 0 initialState (.text "null") =
      { initialState with messages := [⟨.peer, "null", 0⟩] } := by
  have h : handleMessage 0 initialState (.text "null") =
      { initialState with messages := [⟨.peer, "null", 0⟩] } := rfl
  refine ⟨?_, h⟩
  rw [h]
  intro he
  have hmsg := congrArg MeshState.messages he
  simp [initialState] at hmsg

/-- C10 (amended): a text frame that parses as JSON — other than top-level
`null` — whose `t` tag matches none of chat / file-meta / file-end (for
example `"42"` or `\x7b"t":"other"\x7d`) is silently dropped, the whole
component state (message log and in-flight buffer included) left
unchanged; the text `"null"` is the exception: its tag access throws, and
the catch appends the whole text as a literal peer chat message. -/
theorem C10_unknown_tag_dropped :
    (∀ (now : Nat) (st : MeshState), handleMessage now st (.text "42") = st) ∧
    (∀ (now : Nat) (st : MeshState),
      handleMessage now st (.text "\x7b\"t\":\"other\"\x7d") = st) ∧
    (∀ (now : Nat) (st : MeshState) (s : String) (v : Json),
      jsonParse s = some v → classify v = .other → handleMessage now st (.text s) = st) ∧
    (∀ (now : Nat) (st : MeshState),
      handleMessage now st (.text "null") =
        { st with messages := st.messages ++ [⟨.peer, "null", now⟩] }) := by
  have h42 : jsonParse "42" = some (.num false 42 []) := rfl
  have hc42 : classify (Json.num false 42 []) = .other := rfl
  have hot : jsonParse "\x7b\"t\":\"other\"\x7d" = some (.obj [("t", .str "other")]) := rfl
  have hcot : classify (.obj [("t", .str "other")]) = .other := rfl
  have hnl : jsonParse "null" = some .null := rfl
  have hcnl : classify Json.null = .fault := rfl
  refine ⟨fun now st => ?_, fun now st => ?_, fun now st s v h hc => ?_, fun now st => ?_⟩ <;>
    simp [handleMessage, handleTextFrame, h42, hc42, hot, hcot, hnl, hcnl, *]

/-- C10 witness: the frame `"42"` on a fresh session. -/
theorem C10_witness : handleMessage 0 initialState (.text "42") = initialState :=
  C10_unknown_tag_dropped.2.2.1 0 initialState "42" (.num false 42 []) rfl rfl

/-- C3 counterexample: with a valid answer pasted into a session on which
`createOffer` was never run (the spec's `New` state), `applyAnswer` does
not fail with an invalid-transition error: it decodes the text and hands
the parsed descriptor to the transport. -/
theorem C3_counterexample :
    (applyAnswer { initialState with remoteAnswer := encodeDesc ⟨"answer", "v=0"⟩ }).1 =
      .applied (descJson ⟨"answer", "v=0"⟩) := by
  have h := jsonParse_encodeDesc ⟨"answer", "v=0"⟩
  simp [applyAnswer, h]

/-- C3 (amended): `applyAnswer` performs no session-state guard at all:
from any component state — in particular before `createOffer` has ever
run — it decodes the pasted text and passes the parsed descriptor to the
transport, leaving the component state unchanged; any rejection happens
inside the transport, not as a session-level invalid-transition error. -/
theorem C3_no_state_guard (st : MeshState) (v : Json)
    (h : jsonParse st.remoteAnswer = some v) :
    applyAnswer st = (.applied v, st) := by
  simp [applyAnswer, h]

/-- C3 witness: the fresh-session instance of the amended claim. -/
theorem C3_witness :
    applyAnswer { initialState with remoteAnswer := encodeDesc ⟨"answer", "v=0"⟩ } =
      (.applied (descJson ⟨"answer", "v=0"⟩),
        { initialState with remoteAnswer := encodeDesc ⟨"answer", "v=0"⟩ }) :=
  C3_no_state_guard _ _ (jsonParse_encodeDesc ⟨"answer", "v=0"⟩)

/-- C9: sending "a" then "b" over an open channel with no remote traffic
yields the log [("a", me), ("b", me)] in that order, the local echo being
appended immediately on send; and the log is append-only across every
operation (the previous log is always a prefix of the new one). -/
theorem C9_chat_order_and_append_only :
    (∀ n1 n2 : Nat,
      ((sendChat n2 (chatDemo1 n1)).1.messages.map
        fun m => (m.text, m.origin)) = [("a", Origin.me), ("b", Origin.me)]) ∧
    (∀ (now : Nat) (st : MeshState), st.messages <+: (sendChat now st).1.messages) ∧
    (∀ (now : Nat) (st : MeshState) (fr : Frame),
      st.messages <+: (handleMessage now st fr).messages) := by
  refine ⟨fun n1 n2 => rfl, fun now st => ?_, fun now st fr => ?_⟩
  · by_cases h1 : st.dataChannel ≠ some "open"
    · simp [sendChat, h1]
    · by_cases h2 : jsTrim st.outgoingText = ""
      · simp [sendChat, h1, h2]
      · simp [sendChat, h1, h2]
  · cases fr with
    | binary b =>
      cases h : st.sending <;> simp [handleMessage, h]
    | text s =>
      simp only [handleMessage, handleTextFrame]
      cases h : jsonParse s with
      | none => simp
      | some v =>
        cases hc : classify v with
        | chat text => simp [hc]
        | fileMeta size => simp [hc]
        | fileEnd => cases hs : st.sending <;> simp [hc, hs]
        | other => simp [hc]
        | fault => simp [hc]

/-- C8: in every `createOffer` run, the data channel is created before the
offer descriptor is generated (when no channel existed yet), and wherever
the encode step occurs in the trace, candidate gathering had already
reached its terminal state. -/
theorem C8_createOffer_ordering (hasChannel complete0 : Bool) (k : Nat) :
    (hasChannel = false →
      ∀ pre suf, createOfferTrace hasChannel complete0 k = pre ++ OfferEv.genOffer :: suf →
        OfferEv.createChannel ∈ pre) ∧
    (∀ pre suf, createOfferTrace hasChannel complete0 k = pre ++ OfferEv.encode :: suf →
      gatherDone complete0 pre) := by
  constructor
  · intro hch pre suf h
    subst hch
    have hsh : createOfferTrace false complete0 k =
        [OfferEv.createChannel] ++ OfferEv.genOffer ::
          (OfferEv.setLocal :: (waitForIceGathering complete0 k ++ [OfferEv.encode])) := by
      simp [createOfferTrace]
    rw [hsh] at h
    have hni : OfferEv.genOffer ∉ [OfferEv.createChannel] := by decide
    have hnt : OfferEv.genOffer ∉
        OfferEv.setLocal :: (waitForIceGathering complete0 k ++ [OfferEv.encode]) := by
      cases complete0 <;> simp [waitForIceGathering, List.mem_replicate]
    obtain ⟨hpre, -⟩ := append_split_unique OfferEv.genOffer pre _ _ suf h hni hnt
    rw [hpre]
    simp
  · intro pre suf h
    have hsh : createOfferTrace hasChannel complete0 k =
        ((if hasChannel then [] else [OfferEv.createChannel]) ++
          OfferEv.genOffer :: OfferEv.setLocal :: waitForIceGathering complete0 k) ++
          OfferEv.encode :: [] := by
      simp [createOfferTrace]
    rw [hsh] at h
    have hni : OfferEv.encode ∉
        (if hasChannel then [] else [OfferEv.createChannel]) ++
          OfferEv.genOffer :: OfferEv.setLocal :: waitForIceGathering complete0 k := by
      cases hasChannel <;> cases complete0 <;>
        simp [waitForIceGathering, List.mem_replicate]
    have hnt : OfferEv.encode ∉ ([] : List OfferEv) := by simp
    obtain ⟨hpre, -⟩ := append_split_unique OfferEv.encode pre _ _ suf h hni hnt
    rw [hpre]
    cases complete0 with
    | true => exact Or.inl rfl
    | false =>
      refine Or.inr ?_
      simp [waitForIceGathering]

/-- C8 witness: the two ordering facts at a concrete one-event gathering
environment. -/
theorem C8_witness :
    OfferEv.createChannel ∈ ([OfferEv.createChannel] : List OfferEv) ∧
      gatherDone false
        [OfferEv.createChannel, OfferEv.genOffer, OfferEv.setLocal, OfferEv.gatherEvent,
          OfferEv.gatherComplete] :=
  ⟨(C8_createOffer_ordering false false 1).1 rfl [OfferEv.createChannel]
      [OfferEv.setLocal, OfferEv.gatherEvent, OfferEv.gatherComplete, OfferEv.encode] rfl,
    (C8_createOffer_ordering false false 1).2
      [OfferEv.createChannel, OfferEv.genOffer, OfferEv.setLocal, OfferEv.gatherEvent,
        OfferEv.gatherComplete] [] rfl⟩
